import Mathlib

/-!
Shallow embedding of the NVDAAudioLogger core
(`_wavestorage.py`, `_nvdaaudio.py`, `_sysaudio.py`).

Raw PCM bytes are modelled as `List Nat`; a Python `bytearray` slice
`b[a:c]` is `(b.take c).drop a`, and slice assignment of equal length is
modelled by the corresponding take/append/drop decomposition.
Python marker positions can become negative through
`addmarker_at_time`, so marker positions are `Int`.
-/

namespace AudioLogger

/-- `NS_PER_SEC` from `_wavestorage.py`. -/
def NS_PER_SEC : Nat := 1000000000

/-- Python slice `data[-k:]`: for `k = 0` this is the whole sequence
(Python's `data[-0:] = data[0:]`), otherwise the last `k` elements. -/
def lastSlice (data : List Nat) (k : Nat) : List Nat :=
  if k = 0 then data else data.drop (data.length - k)

/-- State of `WaveStorage` (`_wavestorage.py`).  `buffer` is the circular
byte buffer, `writeidx` the byte offset of the oldest data once the ring is
full, `nsampleswritten` the monotone frame counter, `perf_counter_ns` the
time anchor at the end of the buffer, `markers` the (position, label)
timeline. -/
structure WaveStorage where
  nchannels : Nat
  sampwidth : Nat
  framerate : Nat
  maxframes : Option Nat
  buffer : List Nat
  writeidx : Nat
  nsampleswritten : Nat
  perf_counter_ns : Option Int
  markers : List (Int × String)
  deriving Repr, DecidableEq

/-- `_framesize = sampwidth * nchannels` (constructor line 18). -/
def WaveStorage.framesize (s : WaveStorage) : Nat := s.sampwidth * s.nchannels

/-- `_maxsize = maxframes * framesize` when bounded (constructor line 20). -/
def WaveStorage.maxsize (s : WaveStorage) : Option Nat :=
  s.maxframes.map (fun mf => mf * s.framesize)

/-- `WaveStorage.__init__`. -/
def WaveStorage.init (nchannels sampwidth framerate : Nat) (maxframes : Option Nat) :
    WaveStorage :=
  { nchannels := nchannels
    sampwidth := sampwidth
    framerate := framerate
    maxframes := maxframes
    buffer := []
    writeidx := 0
    nsampleswritten := 0
    perf_counter_ns := none
    markers := [] }

/-- The marker filter of `_remove_old_markers`: when bounded, keep only
markers whose position is at least `ns - mf` (an `Int`, possibly
negative). -/
def pruneMarkers (ns : Nat) (mfOpt : Option Nat) (ms : List (Int × String)) :
    List (Int × String) :=
  match mfOpt with
  | none => ms
  | some mf => ms.filter (fun m => (ns : Int) - (mf : Int) ≤ m.1)

/-- `WaveStorage._remove_old_markers`. -/
def WaveStorage.remove_old_markers (s : WaveStorage) : WaveStorage :=
  { s with markers := pruneMarkers s.nsampleswritten s.maxframes s.markers }

/-- `WaveStorage.addmarker`: append a marker at the current write position,
then prune. -/
def WaveStorage.addmarker (s : WaveStorage) (text : String) : WaveStorage :=
  ({ s with markers := s.markers ++ [((s.nsampleswritten : Int), text)] }).remove_old_markers

/-- `WaveStorage.addmarker_at_time`: with no anchor, degrade to `addmarker`;
otherwise place the marker at `nsampleswritten + (t - anchor) * framerate // 10^9`
(Python floor division, hence `Int.fdiv`), then prune. -/
def WaveStorage.addmarker_at_time (s : WaveStorage) (perf : Int) (text : String) :
    WaveStorage :=
  match s.perf_counter_ns with
  | none => s.addmarker text
  | some anchor =>
    ({ s with markers := s.markers ++
        [((s.nsampleswritten : Int) +
          Int.fdiv ((perf - anchor) * (s.framerate : Int)) (NS_PER_SEC : Int), text)] }
      ).remove_old_markers

/-- The ring-buffer update of `WaveStorage.write` (lines 62-87 of
`_wavestorage.py`), for data already truncated to a frame boundary: returns
the new `(buffer, writeidx)`.  Slice assignments of equal length are the
corresponding take/append/drop decompositions. -/
def WaveStorage.writeRing (s : WaveStorage) (data : List Nat) : List Nat × Nat :=
  let size := data.length
  match s.maxsize with
  | none => (s.buffer ++ data, s.writeidx)
  | some M =>
    if M ≤ size then
      -- overwrite the entire buffer with the last M bytes of the data
      (lastSlice data M, 0)
    else
      let space := M - s.buffer.length
      if 0 < space then
        if size ≤ space then (s.buffer ++ data, s.writeidx)
        else
          let remaining := size - space
          (data.drop space ++ (s.buffer ++ data.take space).drop remaining, remaining)
      else
        if s.writeidx + size ≤ M then
          (s.buffer.take s.writeidx ++ data ++ s.buffer.drop (s.writeidx + size),
            s.writeidx + size)
        else
          let space := M - s.writeidx
          let remaining := size - space
          let b1 := s.buffer.take s.writeidx ++ data.take space ++ s.buffer.drop M
          (data.drop space ++ b1.drop remaining, remaining)

/-- `WaveStorage.write`: truncate a misaligned tail (adding the
`"!WAVE MISALIGNED"` marker), update the ring buffer, bump
`nsampleswritten` by the number of whole frames written, and update the
time anchor when a timestamp is supplied. -/
def WaveStorage.write (s : WaveStorage) (data0 : List Nat) (perf : Option Int) :
    WaveStorage :=
  let size0 := data0.length
  let misaligned := size0 % s.framesize ≠ 0
  let s1 := if misaligned then s.addmarker "!WAVE MISALIGNED" else s
  let data := if misaligned then data0.take (size0 - size0 % s.framesize) else data0
  let bw := s1.writeRing data
  let s3 : WaveStorage :=
    { s1 with
        buffer := bw.1
        writeidx := bw.2
        nsampleswritten := s1.nsampleswritten + data.length / s1.framesize }
  match perf with
  | none => s3
  | some t =>
    let duration_ns : Nat := data.length / s1.framesize * NS_PER_SEC / s1.framerate
    { s3 with perf_counter_ns := some (t + (duration_ns : Int)) }

/-- `WaveStorage.getbytes`: the buffer as-is while not yet full, otherwise
`buffer[writeidx:maxsize] + buffer[:writeidx]`. -/
def WaveStorage.getbytes (s : WaveStorage) : List Nat :=
  match s.maxsize with
  | none => s.buffer
  | some M =>
    if s.buffer.length < M then s.buffer
    else (s.buffer.take M).drop s.writeidx ++ s.buffer.take s.writeidx

example :
    (((WaveStorage.init 1 1 1 (some 4)).write [1, 2, 3] none).write [4, 5, 6]
      none).getbytes = [3, 4, 5, 6] := by decide

example :
    ((((WaveStorage.init 1 1 1 (some 4)).write [1, 2, 3, 4, 5, 6] none).write [7, 8]
      none)).writeidx = 2 := by decide

example :
    ((((WaveStorage.init 1 1 1 (some 4)).write [1, 2, 3, 4, 5, 6] none).write [7, 8] none).write
      [9, 10] none).writeidx = 4 := by decide

example :
    ((WaveStorage.init 1 1 1 (some 10)).write [1, 2, 3] (some 0)).perf_counter_ns
      = some 3000000000 := by decide

example :
    (((WaveStorage.init 1 1 1 (some 10)).write [] (some 0)).addmarker_at_time
      (-5000000000) "x").markers = [(-5, "x")] := by decide

/-! ### RIFF cue / LIST-adtl serialization (`WaveStorage.getwavecuedata`) -/

/-- UTF-8 encoding of one Unicode scalar value as bytes. -/
def utf8EncodeCharNat (c : Char) : List Nat :=
  let v := c.toNat
  if v < 128 then [v]
  else if v < 2048 then [192 + v / 64, 128 + v % 64]
  else if v < 65536 then [224 + v / 4096, 128 + v / 64 % 64, 128 + v % 64]
  else [240 + v / 262144, 128 + v / 4096 % 64, 128 + v / 64 % 64, 128 + v % 64]

/-- UTF-8 encoding of a string as a byte list (Python `text.encode("utf-8")`). -/
def utf8Bytes (text : String) : List Nat := (text.data.map utf8EncodeCharNat).flatten

/-- Little-endian 32-bit encoding of a natural number below `2^32`. -/
def le32 (n : Nat) : List Nat :=
  [n % 256, n / 256 % 256, n / 65536 % 256, n / 16777216 % 256]

/-- `struct.pack("<I", i)`: fails (raises) unless `0 ≤ i < 2^32`. -/
def packU32 (i : Int) : Option (List Nat) :=
  if 0 ≤ i ∧ i < 4294967296 then some (le32 i.toNat) else none

/-- One cue point as packed by `struct.pack("<II4sIII", id, pos, b"data", 0, 0,
pos - firstframe)`. -/
def cuePoint (id : Nat) (pos firstframe : Int) : Option (List Nat) := do
  let idB ← packU32 (id : Int)
  let posB ← packU32 pos
  let z1 ← packU32 0
  let z2 ← packU32 0
  let offB ← packU32 (pos - firstframe)
  return idB ++ posB ++ utf8Bytes "data" ++ z1 ++ z2 ++ offB

/-- NUL-terminated, WORD-padded label text. -/
def paddedLabel (text : String) : List Nat :=
  let tb := utf8Bytes text ++ [0]
  if tb.length % 2 ≠ 0 then tb ++ [0] else tb

/-- One `labl` sub-chunk: `struct.pack("<4sII", b"labl", 4 + len(text_bytes), id)`
followed by the padded label text. -/
def lablChunk (id : Nat) (text : String) : Option (List Nat) := do
  let szB ← packU32 ((4 + (paddedLabel text).length : Nat) : Int)
  let idB ← packU32 ((id : Nat) : Int)
  return utf8Bytes "labl" ++ szB ++ idB ++ paddedLabel text

/-- The `for id, (pos, text) in enumerate(self._markers, start=1)` loop of
`getwavecuedata`, accumulating the cue-point and label-chunk lists. -/
def cueLoop (firstframe : Int) : Nat → List (Int × String) →
    Option (List (List Nat) × List (List Nat))
  | _, [] => some ([], [])
  | id, m :: rest => do
    let cp ← cuePoint id m.1 firstframe
    let lc ← lablChunk id m.2
    let (cps, lcs) ← cueLoop firstframe (id + 1) rest
    return (cp :: cps, lc :: lcs)

/-- The first retained frame: `max(nsampleswritten - maxframes, 0)` when
bounded, else 0. -/
def WaveStorage.firstframe (s : WaveStorage) : Int :=
  match s.maxframes with
  | none => 0
  | some mf => max ((s.nsampleswritten : Int) - (mf : Int)) 0

/-- `WaveStorage.getwavecuedata`: prune old markers, then emit the
`cue ` chunk followed by the `LIST`/`adtl` chunk.  `none` models a
`struct.error` on an out-of-range (e.g. negative) value. -/
def WaveStorage.getwavecuedata (s0 : WaveStorage) : Option (List Nat) := do
  let (cue_points, label_chunks) ← cueLoop s0.remove_old_markers.firstframe 1
    s0.remove_old_markers.markers
  let cueSzB ← packU32 ((4 + cue_points.flatten.length : Nat) : Int)
  let cntB ← packU32 ((cue_points.length : Nat) : Int)
  let listSzB ← packU32 ((4 + label_chunks.flatten.length : Nat) : Int)
  return utf8Bytes "cue " ++ cueSzB ++ cntB ++ cue_points.flatten ++
    utf8Bytes "LIST" ++ listSzB ++ utf8Bytes "adtl" ++ label_chunks.flatten

example : utf8Bytes "data" = [100, 97, 116, 97] := by decide

example :
    ((WaveStorage.init 1 1 1 (some 10)).addmarker "ab").getwavecuedata =
      some ([99, 117, 101, 32] ++ le32 28 ++ le32 1 ++
        (le32 1 ++ le32 0 ++ [100, 97, 116, 97] ++ le32 0 ++ le32 0 ++ le32 0) ++
        [76, 73, 83, 84] ++ le32 20 ++ [97, 100, 116, 108] ++
        ([108, 97, 98, 108] ++ le32 8 ++ le32 1 ++ [97, 98, 0, 0])) := by decide

/-! ### Stream Tracker (`_nvdaaudio.py`) -/

/-- `_PlayerInfo`: per-stream tracked entry.  `lastActivePerfCounter` models
`time.perf_counter()` values (seconds). -/
structure PlayerInfo where
  fileName : String
  lastActivePerfCounter : Int
  waveStorage : WaveStorage
  deriving Repr, DecidableEq

/-- One observable step of `_player_feed`'s per-block loop. -/
inductive FeedEvent where
  | origFeed (block : List Nat)
  | storageWrite (block : List Nat)
  deriving Repr, DecidableEq

/-- The blocks produced by `for i in range(0, size, m): d[i : i + m]`. -/
def chunks (m : Nat) (d : List Nat) : List (List Nat) :=
  if hne : d = [] ∨ m = 0 then [] else d.take m :: chunks m (d.drop m)
termination_by d.length
decreasing_by
  push_neg at hne
  have hd : 0 < d.length := List.length_pos.mpr hne.1
  have hm : m ≠ 0 := hne.2
  simp only [List.length_drop]
  omega

/-- The body of `_player_feed`'s loop over `range(0, size, maxblocksize)`:
for each sub-block, call the original `feed` first, then (under the entry's
lock) write the sub-block to the entry's storage and refresh its
last-active timestamp.  Returns the event trace and the final entry state.
(`m = 0` cannot occur: Python `range` would raise; modelled as no
iterations.) -/
def feedLoop (m : Nat) (d : List Nat) (now : Int) (i : Nat) (p : PlayerInfo) :
    List FeedEvent × PlayerInfo :=
  if _h : 0 < m ∧ i < d.length then
    let block := (d.drop i).take m
    let p1 : PlayerInfo :=
      { p with
          waveStorage := p.waveStorage.write block none
          lastActivePerfCounter := now }
    let rest := feedLoop m d now (i + m) p1
    (FeedEvent.origFeed block :: FeedEvent.storageWrite block :: rest.1, rest.2)
  else ([], p)
termination_by d.length - i
decreasing_by omega

/-- The idle-eviction sweep at the end of `_player_feed`: an entry is
deleted when `lastActivePerfCounter - now > max_duration_sec`. -/
def sweepPlayers (players : List (Nat × PlayerInfo)) (now maxDurationSec : Int) :
    List (Nat × PlayerInfo) :=
  players.filter (fun kv => ! decide (maxDurationSec < kv.2.lastActivePerfCounter - now))

/-! ### System audio recorder (`_sysaudio.py`) -/

/-- The state of `SystemAudioRecorder` relevant to saving: its (lazily
initialized) storage. -/
structure SystemAudioRecorder where
  max_duration_sec : Nat
  wavestorage : Option WaveStorage

/-- `SystemAudioRecorder.savetofile`: raises `ValueError("No wave storage")`
when no storage was ever initialized, otherwise delegates to the owned
storage's `savetofile`.  The file I/O itself is outside the model; the
result names the storage the call delegates to. -/
def SystemAudioRecorder.savetofile (r : SystemAudioRecorder) : Except String WaveStorage :=
  match r.wavestorage with
  | none => Except.error "No wave storage"
  | some ws => Except.ok ws

/-! ## Bookkeeping lemmas -/

@[simp] theorem remove_old_markers_buffer (s : WaveStorage) :
    s.remove_old_markers.buffer = s.buffer := rfl

@[simp] theorem remove_old_markers_writeidx (s : WaveStorage) :
    s.remove_old_markers.writeidx = s.writeidx := rfl

@[simp] theorem remove_old_markers_nsampleswritten (s : WaveStorage) :
    s.remove_old_markers.nsampleswritten = s.nsampleswritten := rfl

@[simp] theorem remove_old_markers_maxframes (s : WaveStorage) :
    s.remove_old_markers.maxframes = s.maxframes := rfl

@[simp] theorem remove_old_markers_framesize (s : WaveStorage) :
    s.remove_old_markers.framesize = s.framesize := rfl

@[simp] theorem remove_old_markers_maxsize (s : WaveStorage) :
    s.remove_old_markers.maxsize = s.maxsize := rfl

@[simp] theorem remove_old_markers_framerate (s : WaveStorage) :
    s.remove_old_markers.framerate = s.framerate := rfl

@[simp] theorem remove_old_markers_perf (s : WaveStorage) :
    s.remove_old_markers.perf_counter_ns = s.perf_counter_ns := rfl

@[simp] theorem remove_old_markers_markers (s : WaveStorage) :
    s.remove_old_markers.markers = pruneMarkers s.nsampleswritten s.maxframes s.markers := rfl

@[simp] theorem addmarker_buffer (s : WaveStorage) (lbl : String) :
    (s.addmarker lbl).buffer = s.buffer := rfl

@[simp] theorem addmarker_writeidx (s : WaveStorage) (lbl : String) :
    (s.addmarker lbl).writeidx = s.writeidx := rfl

@[simp] theorem addmarker_nsampleswritten (s : WaveStorage) (lbl : String) :
    (s.addmarker lbl).nsampleswritten = s.nsampleswritten := rfl

@[simp] theorem addmarker_maxframes (s : WaveStorage) (lbl : String) :
    (s.addmarker lbl).maxframes = s.maxframes := rfl

@[simp] theorem addmarker_framesize (s : WaveStorage) (lbl : String) :
    (s.addmarker lbl).framesize = s.framesize := rfl

@[simp] theorem addmarker_maxsize (s : WaveStorage) (lbl : String) :
    (s.addmarker lbl).maxsize = s.maxsize := rfl

@[simp] theorem addmarker_framerate (s : WaveStorage) (lbl : String) :
    (s.addmarker lbl).framerate = s.framerate := rfl

@[simp] theorem addmarker_perf (s : WaveStorage) (lbl : String) :
    (s.addmarker lbl).perf_counter_ns = s.perf_counter_ns := rfl

theorem addmarker_markers (s : WaveStorage) (lbl : String) :
    (s.addmarker lbl).markers =
      pruneMarkers s.nsampleswritten s.maxframes
        (s.markers ++ [((s.nsampleswritten : Int), lbl)]) := rfl

@[simp] theorem remove_old_markers_nchannels (s : WaveStorage) :
    s.remove_old_markers.nchannels = s.nchannels := rfl

@[simp] theorem remove_old_markers_sampwidth (s : WaveStorage) :
    s.remove_old_markers.sampwidth = s.sampwidth := rfl

@[simp] theorem addmarker_nchannels (s : WaveStorage) (lbl : String) :
    (s.addmarker lbl).nchannels = s.nchannels := rfl

@[simp] theorem addmarker_sampwidth (s : WaveStorage) (lbl : String) :
    (s.addmarker lbl).sampwidth = s.sampwidth := rfl

/-- An aligned write without a timestamp: ring update plus frame-counter
increment. -/
theorem write_none_aligned (s : WaveStorage) (data : List Nat)
    (h : data.length % s.framesize = 0) :
    s.write data none =
      { s with buffer := (s.writeRing data).1
               writeidx := (s.writeRing data).2
               nsampleswritten := s.nsampleswritten + data.length / s.framesize } := by
  unfold WaveStorage.write
  simp [h]

/-- An aligned write with a timestamp additionally sets the time anchor to
`t + framesWritten * NS_PER_SEC / framerate`. -/
theorem write_some_aligned (s : WaveStorage) (data : List Nat) (t : Int)
    (h : data.length % s.framesize = 0) :
    s.write data (some t) =
      { s with buffer := (s.writeRing data).1
               writeidx := (s.writeRing data).2
               nsampleswritten := s.nsampleswritten + data.length / s.framesize
               perf_counter_ns := some (t + ((data.length / s.framesize * NS_PER_SEC / s.framerate : Nat) : Int)) } := by
  unfold WaveStorage.write
  simp [h]

/-- A misaligned write behaves exactly as adding the diagnostic marker and
then writing the frame-aligned prefix. -/
theorem write_misaligned (s : WaveStorage) (data : List Nat) (perf : Option Int)
    (h : data.length % s.framesize ≠ 0) :
    s.write data perf =
      (s.addmarker "!WAVE MISALIGNED").write
        (data.take (data.length - data.length % s.framesize)) perf := by
  have hmul : data.length - data.length % s.framesize =
      s.framesize * (data.length / s.framesize) := by
    have := Nat.div_add_mod data.length s.framesize
    omega
  have hsub : data.length - data.length % s.framesize ≤ data.length := Nat.sub_le _ _
  have halign : (data.length - data.length % s.framesize) % s.framesize = 0 := by
    rw [hmul]
    exact Nat.mul_mod_right _ _
  unfold WaveStorage.write
  simp [h, halign, inf_eq_left.mpr hsub]

theorem write_fields (s : WaveStorage) (data : List Nat) (perf : Option Int) :
    (s.write data perf).nchannels = s.nchannels ∧
    (s.write data perf).sampwidth = s.sampwidth ∧
    (s.write data perf).framerate = s.framerate ∧
    (s.write data perf).maxframes = s.maxframes := by
  rcases perf with _ | t <;> by_cases h : data.length % s.framesize = 0 <;>
    simp [WaveStorage.write, h]

@[simp] theorem write_nchannels (s : WaveStorage) (data : List Nat) (perf : Option Int) :
    (s.write data perf).nchannels = s.nchannels := (write_fields s data perf).1

@[simp] theorem write_sampwidth (s : WaveStorage) (data : List Nat) (perf : Option Int) :
    (s.write data perf).sampwidth = s.sampwidth := (write_fields s data perf).2.1

@[simp] theorem write_framerate (s : WaveStorage) (data : List Nat) (perf : Option Int) :
    (s.write data perf).framerate = s.framerate := (write_fields s data perf).2.2.1

@[simp] theorem write_maxframes (s : WaveStorage) (data : List Nat) (perf : Option Int) :
    (s.write data perf).maxframes = s.maxframes := (write_fields s data perf).2.2.2

@[simp] theorem write_framesize (s : WaveStorage) (data : List Nat) (perf : Option Int) :
    (s.write data perf).framesize = s.framesize := by
  simp [WaveStorage.framesize]

@[simp] theorem write_maxsize (s : WaveStorage) (data : List Nat) (perf : Option Int) :
    (s.write data perf).maxsize = s.maxsize := by
  simp [WaveStorage.maxsize]

/-- `write` always increments the frame counter by the number of whole
frames in the data. -/
theorem write_nsampleswritten (s : WaveStorage) (data : List Nat) (perf : Option Int) :
    (s.write data perf).nsampleswritten =
      s.nsampleswritten + data.length / s.framesize := by
  by_cases h : data.length % s.framesize = 0
  · rcases perf with _ | t
    · rw [write_none_aligned _ _ h]
    · rw [write_some_aligned _ _ _ h]
  · have hmul : data.length - data.length % s.framesize =
        s.framesize * (data.length / s.framesize) := by
      have := Nat.div_add_mod data.length s.framesize
      omega
    have hdiv : (data.length - data.length % s.framesize) / s.framesize =
        data.length / s.framesize := by
      rcases Nat.eq_zero_or_pos s.framesize with h0 | h0
      · simp [h0]
      · rw [hmul, Nat.mul_div_cancel_left _ h0]
    rcases perf with _ | t <;>
      simp [WaveStorage.write, h, inf_eq_left.mpr (Nat.sub_le data.length _), hdiv]

/-- The markers after a `write`: unchanged for aligned data, one
`"!WAVE MISALIGNED"` marker added otherwise. -/
theorem write_markers (s : WaveStorage) (data : List Nat) (perf : Option Int) :
    (s.write data perf).markers =
      if data.length % s.framesize ≠ 0 then (s.addmarker "!WAVE MISALIGNED").markers
      else s.markers := by
  rcases perf with _ | t <;> by_cases h : data.length % s.framesize = 0 <;>
    simp [WaveStorage.write, h]

theorem write_buffer_aligned (s : WaveStorage) (data : List Nat) (perf : Option Int)
    (h : data.length % s.framesize = 0) :
    (s.write data perf).buffer = (s.writeRing data).1 := by
  rcases perf with _ | t
  · rw [write_none_aligned _ _ h]
  · rw [write_some_aligned _ _ _ h]

theorem write_writeidx_aligned (s : WaveStorage) (data : List Nat) (perf : Option Int)
    (h : data.length % s.framesize = 0) :
    (s.write data perf).writeidx = (s.writeRing data).2 := by
  rcases perf with _ | t
  · rw [write_none_aligned _ _ h]
  · rw [write_some_aligned _ _ _ h]

/-! ## Claim C1 — idle eviction of tracked stream entries

The sweep at the end of `_player_feed` (lines 103-106) deletes an entry
only when `lastActivePerfCounter - now > max_duration_sec`.  Since
`lastActivePerfCounter` was recorded at an earlier `time.perf_counter()`
reading, that difference is never positive, so no entry is ever evicted —
contradicting the code's own comment (lines 28-31) and the claimed idle
eviction. -/

/-- Claim C1 (refuting evidence, code bug): whenever every tracked entry's
last-active time is at most `now` — always true for a monotonic clock — and
the retention window is nonnegative, the sweep of `_player_feed` removes
nothing at all; in particular an entry idle longer than the retention
window survives the next feed from any other stream. -/
theorem C1_sweep_never_evicts (players : List (Nat × PlayerInfo))
    (now maxDurationSec : Int)
    (hpast : ∀ kv ∈ players, kv.2.lastActivePerfCounter ≤ now)
    (hdur : 0 ≤ maxDurationSec) :
    sweepPlayers players now maxDurationSec = players := by
  unfold sweepPlayers
  apply List.filter_eq_self.mpr
  intro kv hkv
  have h := hpast kv hkv
  simp only [Bool.not_eq_true', decide_eq_false_iff_not]
  omega

/-- A tracked entry that has been idle for 100 seconds. -/
def staleEntry : PlayerInfo :=
  { fileName := "WavePlayer 1.wav"
    lastActivePerfCounter := 0
    waveStorage := WaveStorage.init 1 2 48000 (some 1440000) }

/-- Witness for C1: with a 30-second retention window, a feed happening at
time 100 keeps the entry that has been idle since time 0. -/
theorem C1_sweep_never_evicts_witness :
    (∀ kv ∈ [(1, staleEntry)], kv.2.lastActivePerfCounter ≤ (100 : Int)) ∧
    (0 : Int) ≤ 30 ∧
    sweepPlayers [(1, staleEntry)] 100 30 = [(1, staleEntry)] :=
  ⟨by decide, by decide, C1_sweep_never_evicts _ _ _ (by decide) (by decide)⟩

/-! ## Claim C9 — saving with no captured data -/

/-- Claim C9: `SystemAudioRecorder.savetofile` fails with the explicit
`"No wave storage"` error exactly when no audio was ever captured (the
storage was never initialized), and otherwise delegates to the owned
storage's save. -/
theorem C9_savetofile_no_data (r : SystemAudioRecorder) :
    (r.wavestorage = none → r.savetofile = Except.error "No wave storage") ∧
    (∀ ws, r.wavestorage = some ws → r.savetofile = Except.ok ws) := by
  constructor
  · intro h
    simp [SystemAudioRecorder.savetofile, h]
  · intro ws h
    simp [SystemAudioRecorder.savetofile, h]

/-- Witness for C9 at a recorder that never captured audio. -/
theorem C9_savetofile_no_data_witness :
    ({ max_duration_sec := 30, wavestorage := none } : SystemAudioRecorder).savetofile
      = Except.error "No wave storage" :=
  (C9_savetofile_no_data _).1 rfl

/-! ## Claim C3 — misaligned writes -/

/-- Appending a marker at the current write position and pruning keeps that
marker: it is never below the retained window. -/
theorem pruneMarkers_append_current (ns : Nat) (mfOpt : Option Nat)
    (ms : List (Int × String)) (lbl : String) :
    pruneMarkers ns mfOpt (ms ++ [((ns : Int), lbl)]) =
      pruneMarkers ns mfOpt ms ++ [((ns : Int), lbl)] := by
  cases mfOpt with
  | none => rfl
  | some mf =>
    have hk : (ns : Int) - (mf : Int) ≤ (ns : Int) := by omega
    simp [pruneMarkers, List.filter_append, hk]

/-- Claim C3: a write of `framesize * N + r` bytes with `0 < r < framesize`
behaves as adding one `"!WAVE MISALIGNED"` marker at the pre-write value of
`nsampleswritten` and then writing exactly the first `N` frames; the frame
counter grows by exactly `N` and the operation is total. -/
theorem C3_misaligned_write (s : WaveStorage) (data : List Nat) (perf : Option Int)
    (N r : Nat) (hlen : data.length = s.framesize * N + r) (hr : 0 < r)
    (hrf : r < s.framesize) :
    s.write data perf =
      (s.addmarker "!WAVE MISALIGNED").write (data.take (s.framesize * N)) perf ∧
    (s.write data perf).nsampleswritten = s.nsampleswritten + N ∧
    (s.write data perf).markers =
      pruneMarkers s.nsampleswritten s.maxframes s.markers ++
        [((s.nsampleswritten : Int), "!WAVE MISALIGNED")] := by
  have hfs : 0 < s.framesize := by omega
  have hmod : data.length % s.framesize = r := by
    rw [hlen, Nat.mul_add_mod, Nat.mod_eq_of_lt hrf]
  have hne : data.length % s.framesize ≠ 0 := by omega
  have htrunc : data.length - data.length % s.framesize = s.framesize * N := by
    rw [hmod, hlen]
    omega
  refine ⟨?_, ?_, ?_⟩
  · rw [write_misaligned _ _ _ hne, htrunc]
  · rw [write_nsampleswritten]
    have hdiv : data.length / s.framesize = N := by
      rw [hlen, Nat.mul_add_div hfs, Nat.div_eq_of_lt hrf]
      omega
    rw [hdiv]
  · rw [write_markers, if_pos hne, addmarker_markers]
    exact pruneMarkers_append_current _ _ _ _

/-- Witness for C3: writing 5 bytes with a 2-byte frame stores 2 frames and
records the diagnostic marker at the old position. -/
theorem C3_misaligned_write_witness :
    ((WaveStorage.init 2 1 10 (some 100)).write [1, 2, 3, 4, 5] none).nsampleswritten = 2 ∧
    ((WaveStorage.init 2 1 10 (some 100)).write [1, 2, 3, 4, 5] none).markers =
      [(0, "!WAVE MISALIGNED")] := by
  have h := C3_misaligned_write (WaveStorage.init 2 1 10 (some 100)) [1, 2, 3, 4, 5]
    none 2 1 (by decide) (by decide) (by decide)
  refine ⟨h.2.1, ?_⟩
  rw [h.2.2]
  decide

/-! ## Claim C5 — time-anchored markers -/

/-- Claim C5: `addmarker_at_time` degrades to `addmarker` when no anchor is
set; otherwise it appends a marker at
`nsampleswritten + (t - anchor) * framerate / 10^9` (floor division, offset
possibly negative) and prunes; with `framerate = 48000` a request 10 ms
after the anchor lands exactly 480 frames past `nsampleswritten`; and a
timestamped write sets the anchor to
`t + framesWritten * NS_PER_SEC / framerate`. -/
theorem C5_addmarker_at_time (s : WaveStorage) (t : Int) (lbl : String) :
    (s.perf_counter_ns = none → s.addmarker_at_time t lbl = s.addmarker lbl) ∧
    (∀ anchor, s.perf_counter_ns = some anchor →
      (s.addmarker_at_time t lbl).markers =
        pruneMarkers s.nsampleswritten s.maxframes
          (s.markers ++
            [((s.nsampleswritten : Int) +
              Int.fdiv ((t - anchor) * (s.framerate : Int)) ((NS_PER_SEC : Nat) : Int), lbl)])) ∧
    (∀ anchor, s.perf_counter_ns = some anchor → s.framerate = 48000 →
      t = anchor + 10000000 →
      (s.addmarker_at_time t lbl).markers =
        pruneMarkers s.nsampleswritten s.maxframes
          (s.markers ++ [((s.nsampleswritten : Int) + 480, lbl)])) ∧
    (∀ data ts, data.length % s.framesize = 0 →
      (s.write data (some ts)).perf_counter_ns =
        some (ts + ((data.length / s.framesize * NS_PER_SEC / s.framerate : Nat) : Int))) := by
  refine ⟨?_, ?_, ?_, ?_⟩
  · intro h
    simp [WaveStorage.addmarker_at_time, h]
  · intro anchor h
    simp [WaveStorage.addmarker_at_time, h]
  · intro anchor h hfr ht
    have hoff : Int.fdiv ((t - anchor) * (s.framerate : Int)) ((NS_PER_SEC : Nat) : Int)
        = 480 := by
      have h1 : (t - anchor) * (s.framerate : Int) = 480000000000 := by
        rw [ht, hfr]
        omega
      rw [h1]
      decide
    simp [WaveStorage.addmarker_at_time, h, hoff]
  · intro data ts halign
    rw [write_some_aligned _ _ _ halign]

/-- Anchored concrete storage: frame rate 48000, anchor at time 0. -/
def anchored48k : WaveStorage :=
  (WaveStorage.init 1 2 48000 (some 1440000)).write [] (some 0)

/-- Witness for C5: a marker requested 10 ms after the anchor lands at
frame 480. -/
theorem C5_addmarker_at_time_witness :
    anchored48k.perf_counter_ns = some 0 ∧
    (anchored48k.addmarker_at_time 10000000 "m").markers = [(480, "m")] := by
  refine ⟨by decide, ?_⟩
  have h := (C5_addmarker_at_time anchored48k 10000000 "m").2.2.1 0 (by decide)
    (by decide) (by decide)
  rw [h]
  decide

/-! ## Ring-buffer correctness core

`ringView b wi M` is the logical (de-wrapped) byte sequence
`b[wi:M] + b[:wi]`; under the structural invariant `ringOk` it coincides
with `getbytes`, and one aligned `write` turns the view `v` into
`(v ++ data).drop (v.length + data.length - M)` — the sliding window of
the last `M` bytes. -/

/-- The logical (de-wrapped) content `buffer[writeidx:maxsize] + buffer[:writeidx]`. -/
def ringView (b : List Nat) (wi M : Nat) : List Nat :=
  (b.take M).drop wi ++ b.take wi

/-- Structural well-formedness of a bounded ring buffer: the buffer never
exceeds the capacity, the cursor stays within it, and the cursor is 0
until the ring fills up. -/
def ringOk (s : WaveStorage) (M : Nat) : Prop :=
  s.buffer.length ≤ M ∧ s.writeidx ≤ M ∧ (s.buffer.length < M → s.writeidx = 0)

theorem ringOk_writeidx_le (s : WaveStorage) (M : Nat) (h : ringOk s M) :
    s.writeidx ≤ s.buffer.length := by
  obtain ⟨h1, h2, h3⟩ := h
  by_cases hl : s.buffer.length < M
  · rw [h3 hl]
    exact Nat.zero_le _
  · omega

theorem getbytes_eq_ringView (s : WaveStorage) (M : Nat) (hM : s.maxsize = some M)
    (h : ringOk s M) : s.getbytes = ringView s.buffer s.writeidx M := by
  unfold WaveStorage.getbytes ringView
  rw [hM]
  dsimp only
  by_cases hl : s.buffer.length < M
  · rw [if_pos hl, h.2.2 hl]
    simp [List.take_of_length_le (Nat.le_of_lt hl)]
  · rw [if_neg hl]

theorem ringView_length (b : List Nat) (wi M : Nat) (hlen : b.length ≤ M)
    (hwi : wi ≤ b.length) : (ringView b wi M).length = b.length := by
  simp only [ringView, List.length_append, List.length_drop, List.length_take]
  omega

theorem writeRing_eq_overwrite (s : WaveStorage) (data : List Nat) (M : Nat)
    (hM : s.maxsize = some M) (h1 : M ≤ data.length) :
    s.writeRing data = (lastSlice data M, 0) := by
  unfold WaveStorage.writeRing
  rw [hM]
  simp [h1]

theorem writeRing_eq_grow (s : WaveStorage) (data : List Nat) (M : Nat)
    (hM : s.maxsize = some M) (h1 : ¬ M ≤ data.length)
    (h2 : 0 < M - s.buffer.length) (h3 : data.length ≤ M - s.buffer.length) :
    s.writeRing data = (s.buffer ++ data, s.writeidx) := by
  unfold WaveStorage.writeRing
  rw [hM]
  simp [h1, h2, h3]

theorem writeRing_eq_growWrap (s : WaveStorage) (data : List Nat) (M : Nat)
    (hM : s.maxsize = some M) (h1 : ¬ M ≤ data.length)
    (h2 : 0 < M - s.buffer.length) (h3 : ¬ data.length ≤ M - s.buffer.length) :
    s.writeRing data =
      (data.drop (M - s.buffer.length) ++
        (s.buffer ++ data.take (M - s.buffer.length)).drop
          (data.length - (M - s.buffer.length)),
       data.length - (M - s.buffer.length)) := by
  unfold WaveStorage.writeRing
  rw [hM]
  simp [h1, h2, h3]

theorem writeRing_eq_fullFit (s : WaveStorage) (data : List Nat) (M : Nat)
    (hM : s.maxsize = some M) (h1 : ¬ M ≤ data.length)
    (h2 : ¬ 0 < M - s.buffer.length) (h3 : s.writeidx + data.length ≤ M) :
    s.writeRing data =
      (s.buffer.take s.writeidx ++ data ++ s.buffer.drop (s.writeidx + data.length),
       s.writeidx + data.length) := by
  unfold WaveStorage.writeRing
  rw [hM]
  simp [h1, h2, h3]

theorem writeRing_eq_fullWrap (s : WaveStorage) (data : List Nat) (M : Nat)
    (hM : s.maxsize = some M) (h1 : ¬ M ≤ data.length)
    (h2 : ¬ 0 < M - s.buffer.length) (h3 : ¬ s.writeidx + data.length ≤ M) :
    s.writeRing data =
      (data.drop (M - s.writeidx) ++
        (s.buffer.take s.writeidx ++ data.take (M - s.writeidx) ++
          s.buffer.drop M).drop (data.length - (M - s.writeidx)),
       data.length - (M - s.writeidx)) := by
  unfold WaveStorage.writeRing
  rw [hM]
  simp [h1, h2, h3]

/-- Master step lemma for the bounded ring: one update keeps the structural
invariant, the buffer length becomes `min (old + size) M`, and the logical
view becomes the last-`M`-bytes window of `view ++ data`. -/
theorem writeRing_master (s : WaveStorage) (data : List Nat) (M : Nat)
    (hM : s.maxsize = some M) (hMpos : 0 < M) (hok : ringOk s M) :
    ((s.writeRing data).1).length = min (s.buffer.length + data.length) M ∧
    (s.writeRing data).2 ≤ M ∧
    (((s.writeRing data).1).length < M → (s.writeRing data).2 = 0) ∧
    ringView (s.writeRing data).1 (s.writeRing data).2 M =
      (ringView s.buffer s.writeidx M ++ data).drop
        (s.buffer.length + data.length - M) := by
  obtain ⟨hlen, hwi, hnf⟩ := hok
  have hwile : s.writeidx ≤ s.buffer.length := ringOk_writeidx_le s M ⟨hlen, hwi, hnf⟩
  have hview : (ringView s.buffer s.writeidx M).length = s.buffer.length :=
    ringView_length _ _ _ hlen hwile
  by_cases h1 : M ≤ data.length
  · -- incoming data at least fills the capacity: the buffer is replaced
    rw [writeRing_eq_overwrite s data M hM h1]
    have hM0 : M ≠ 0 := Nat.pos_iff_ne_zero.mp hMpos
    have hld : (lastSlice data M).length = M := by
      unfold lastSlice
      rw [if_neg hM0]
      simp only [List.length_drop]
      omega
    refine ⟨by rw [hld]; omega, Nat.zero_le _, fun _ => rfl, ?_⟩
    unfold ringView
    have hview2 : ((s.buffer.take M).drop s.writeidx ++ s.buffer.take s.writeidx).length
        = s.buffer.length := hview
    rw [List.take_of_length_le (le_of_eq hld), List.take_zero, List.drop_zero,
      List.append_nil, List.drop_append_eq_append_drop,
      List.drop_eq_nil_of_le (by rw [hview2]; omega), hview2, List.nil_append]
    have e : s.buffer.length + data.length - M - s.buffer.length = data.length - M := by
      omega
    rw [e]
    unfold lastSlice
    rw [if_neg hM0]
  · by_cases h2 : 0 < M - s.buffer.length
    · have hblt : s.buffer.length < M := by omega
      have hwz : s.writeidx = 0 := hnf hblt
      by_cases h3 : data.length ≤ M - s.buffer.length
      · -- still growing, no wrap
        rw [writeRing_eq_grow s data M hM h1 h2 h3]
        refine ⟨by simp only [List.length_append]; omega, hwi, fun _ => hwz, ?_⟩
        unfold ringView
        rw [hwz]
        simp only [List.take_zero, List.drop_zero, List.append_nil]
        rw [List.take_of_length_le (by simp only [List.length_append]; omega),
          List.take_of_length_le (le_of_lt hblt)]
        have e : s.buffer.length + data.length - M = 0 := by omega
        rw [e, List.drop_zero]
      · -- growing write that wraps
        rw [writeRing_eq_growWrap s data M hM h1 h2 h3]
        have hsp : M - s.buffer.length ≤ data.length := by omega
        have hXlen : (data.drop (M - s.buffer.length)).length =
            data.length - (M - s.buffer.length) := by
          simp [List.length_drop]
        have hb1len : (s.buffer ++ data.take (M - s.buffer.length)).length = M := by
          simp only [List.length_append, List.length_take]
          omega
        have hYlen : ((s.buffer ++ data.take (M - s.buffer.length)).drop
            (data.length - (M - s.buffer.length))).length =
            M - (data.length - (M - s.buffer.length)) := by
          rw [List.length_drop, hb1len]
        have hrem_le : data.length - (M - s.buffer.length) ≤ s.buffer.length := by
          omega
        have e2 : data.length - (M - s.buffer.length) - s.buffer.length = 0 := by
          omega
        have hY : (s.buffer ++ data.take (M - s.buffer.length)).drop
            (data.length - (M - s.buffer.length)) =
            s.buffer.drop (data.length - (M - s.buffer.length)) ++
              data.take (M - s.buffer.length) := by
          rw [List.drop_append_eq_append_drop, e2, List.drop_zero]
        refine ⟨?_, by omega, ?_, ?_⟩
        · rw [List.length_append, hXlen, hYlen]
          omega
        · rw [List.length_append, hXlen, hYlen]
          omega
        · unfold ringView
          rw [hwz]
          simp only [List.take_zero, List.drop_zero, List.append_nil]
          have hXYlen : (data.drop (M - s.buffer.length) ++
              (s.buffer ++ data.take (M - s.buffer.length)).drop
                (data.length - (M - s.buffer.length))).length = M := by
            rw [List.length_append, hXlen, hYlen]
            omega
          have hRHS : (s.buffer.take M ++ data).drop (s.buffer.length + data.length - M)
              = s.buffer.drop (data.length - (M - s.buffer.length)) ++ data := by
            rw [List.take_of_length_le (le_of_lt hblt)]
            have e1 : s.buffer.length + data.length - M =
                data.length - (M - s.buffer.length) := by omega
            rw [e1, List.drop_append_eq_append_drop, e2, List.drop_zero]
          rw [List.take_of_length_le (le_of_eq hXYlen),
            List.drop_append_eq_append_drop, List.take_append_eq_append_take,
            List.drop_eq_nil_of_le (le_of_eq hXlen),
            List.take_of_length_le (le_of_eq hXlen),
            hXlen, Nat.sub_self, List.drop_zero, List.take_zero, List.append_nil,
            List.nil_append, hY, List.append_assoc, List.take_append_drop, hRHS]
    · -- the ring is already full
      have hfull : s.buffer.length = M := by omega
      have htb : s.buffer.take M = s.buffer := List.take_of_length_le (le_of_eq hfull)
      have hsize : data.length < M := by omega
      by_cases h3 : s.writeidx + data.length ≤ M
      · -- full, the write fits without crossing the boundary
        rw [writeRing_eq_fullFit s data M hM h1 h2 h3]
        have hZlen : (s.buffer.take s.writeidx ++ data ++
            s.buffer.drop (s.writeidx + data.length)).length = M := by
          simp only [List.length_append, List.length_take, List.length_drop]
          omega
        have hhd : (s.buffer.take s.writeidx ++ data).length =
            s.writeidx + data.length := by
          simp only [List.length_append, List.length_take]
          omega
        refine ⟨by rw [hZlen]; omega, h3, by rw [hZlen]; omega, ?_⟩
        unfold ringView
        rw [List.take_of_length_le (le_of_eq hZlen),
          List.drop_append_eq_append_drop, List.take_append_eq_append_take,
          List.drop_eq_nil_of_le (le_of_eq hhd),
          List.take_of_length_le (le_of_eq hhd),
          hhd, Nat.sub_self, List.drop_zero, List.take_zero, List.append_nil,
          List.nil_append, htb]
        have e1 : s.buffer.length + data.length - M = data.length := by omega
        rw [e1, List.drop_append_eq_append_drop, List.drop_append_eq_append_drop]
        have hdw : (s.buffer.drop s.writeidx).length = M - s.writeidx := by
          rw [List.length_drop, hfull]
        rw [hdw]
        have e2 : data.length - (M - s.writeidx) = 0 := by omega
        rw [e2, List.drop_zero]
        have e3 : data.length - (s.buffer.drop s.writeidx ++ s.buffer.take s.writeidx).length
            = 0 := by
          simp only [List.length_append, List.length_drop, List.length_take]
          omega
        rw [e3, List.drop_zero, List.drop_drop]
        rw [List.append_assoc]
      · -- full, the write wraps past the capacity boundary
        rw [writeRing_eq_fullWrap s data M hM h1 h2 h3]
        rw [List.drop_eq_nil_of_le (le_of_eq hfull), List.append_nil]
        have hsp2 : M - s.writeidx ≤ data.length := by omega
        have hXlen : (data.drop (M - s.writeidx)).length =
            data.length - (M - s.writeidx) := by
          simp [List.length_drop]
        have hTW : (s.buffer.take s.writeidx).length = s.writeidx := by
          simp only [List.length_take]
          omega
        have hB1len : (s.buffer.take s.writeidx ++ data.take (M - s.writeidx)).length
            = M := by
          simp only [List.length_append, List.length_take]
          omega
        have hYlen : ((s.buffer.take s.writeidx ++ data.take (M - s.writeidx)).drop
            (data.length - (M - s.writeidx))).length =
            M - (data.length - (M - s.writeidx)) := by
          rw [List.length_drop, hB1len]
        have hrem : data.length - (M - s.writeidx) ≤ s.writeidx := by omega
        have hXYlen : (data.drop (M - s.writeidx) ++
            (s.buffer.take s.writeidx ++ data.take (M - s.writeidx)).drop
              (data.length - (M - s.writeidx))).length = M := by
          rw [List.length_append, hXlen, hYlen]
          omega
        refine ⟨by rw [List.length_append, hXlen, hYlen]; omega, by omega,
          by rw [List.length_append, hXlen, hYlen]; omega, ?_⟩
        unfold ringView
        rw [List.take_of_length_le (le_of_eq hXYlen),
          List.drop_append_eq_append_drop, List.take_append_eq_append_take,
          List.drop_eq_nil_of_le (le_of_eq hXlen),
          List.take_of_length_le (le_of_eq hXlen),
          hXlen, Nat.sub_self, List.drop_zero, List.take_zero, List.append_nil,
          List.nil_append]
        have hY : (s.buffer.take s.writeidx ++ data.take (M - s.writeidx)).drop
            (data.length - (M - s.writeidx)) =
            (s.buffer.take s.writeidx).drop (data.length - (M - s.writeidx)) ++
              data.take (M - s.writeidx) := by
          rw [List.drop_append_eq_append_drop, hTW]
          have e0 : data.length - (M - s.writeidx) - s.writeidx = 0 := by omega
          rw [e0, List.drop_zero]
        rw [hY, List.append_assoc, List.take_append_drop, htb]
        have e1 : s.buffer.length + data.length - M = data.length := by omega
        rw [e1, List.drop_append_eq_append_drop, List.drop_append_eq_append_drop]
        have hdw : (s.buffer.drop s.writeidx).length = M - s.writeidx := by
          rw [List.length_drop, hfull]
        rw [hdw, List.drop_eq_nil_of_le (by rw [hdw]; omega : (s.buffer.drop s.writeidx).length ≤ data.length)]
        have e3 : data.length - (s.buffer.drop s.writeidx ++ s.buffer.take s.writeidx).length
            = 0 := by
          simp only [List.length_append, List.length_drop, List.length_take]
          omega
        rw [e3, List.drop_zero, List.nil_append]

theorem getbytes_length_ringOk (s : WaveStorage) (M : Nat) (hM : s.maxsize = some M)
    (hok : ringOk s M) : s.getbytes.length = s.buffer.length := by
  rw [getbytes_eq_ringView s M hM hok]
  exact ringView_length _ _ _ hok.1 (ringOk_writeidx_le s M hok)

/-- One aligned `write` on a well-formed bounded storage: `getbytes` slides
to the last-`M`-bytes window of `old ++ data`, and well-formedness is
preserved. -/
theorem write_step (s : WaveStorage) (data : List Nat) (perf : Option Int) (M : Nat)
    (hM : s.maxsize = some M) (hMpos : 0 < M)
    (halign : data.length % s.framesize = 0) (hok : ringOk s M) :
    (s.write data perf).getbytes =
      (s.getbytes ++ data).drop (s.getbytes.length + data.length - M) ∧
    ringOk (s.write data perf) M ∧
    (s.write data perf).buffer.length = min (s.buffer.length + data.length) M := by
  have hmaster := writeRing_master s data M hM hMpos hok
  have hbuf := write_buffer_aligned s data perf halign
  have hwix := write_writeidx_aligned s data perf halign
  have hM' : (s.write data perf).maxsize = some M := by rw [write_maxsize, hM]
  have hok' : ringOk (s.write data perf) M := by
    refine ⟨?_, ?_, ?_⟩
    · rw [hbuf, hmaster.1]
      omega
    · rw [hwix]
      exact hmaster.2.1
    · rw [hbuf, hwix]
      exact hmaster.2.2.1
  refine ⟨?_, hok', by rw [hbuf, hmaster.1]⟩
  rw [getbytes_eq_ringView _ M hM' hok', hbuf, hwix,
    getbytes_eq_ringView s M hM hok,
    ringView_length _ _ _ hok.1 (ringOk_writeidx_le s M hok)]
  exact hmaster.2.2.2

/-- Sliding the last-`M` window twice is sliding it once over the whole
stream. -/
theorem window_slide (x d : List Nat) (M : Nat) :
    (x.drop (x.length - M) ++ d).drop
      ((x.drop (x.length - M)).length + d.length - M) =
    (x ++ d).drop (x.length + d.length - M) := by
  rw [List.drop_append_eq_append_drop, List.drop_append_eq_append_drop,
    List.drop_drop, List.length_drop]
  congr 1
  · congr 1
    omega
  · congr 1
    omega

/-! ## Claim C2 — wrap correctness -/

/-- Claim C2: for a well-formed bounded storage of byte capacity `M`
(`capacityFrames * frameSize`), two frame-aligned writes whose sizes
together exceed the capacity leave `getbytes` equal to the last `M` bytes
of the two writes' concatenation, in original order; and `getbytes` is the
buffer as-is while not yet full, and `buffer[writeidx:M] ++
buffer[:writeidx]` once full. -/
theorem C2_wrap_correctness (s : WaveStorage) (M : Nat) (d1 d2 : List Nat)
    (ts1 ts2 : Option Int) (hM : s.maxsize = some M) (hMpos : 0 < M)
    (hok : ringOk s M)
    (h1 : d1.length % s.framesize = 0) (h2 : d2.length % s.framesize = 0)
    (hexceed : M < d1.length + d2.length) :
    ((s.write d1 ts1).write d2 ts2).getbytes =
      (d1 ++ d2).drop (d1.length + d2.length - M) ∧
    (s.buffer.length < M → s.getbytes = s.buffer) ∧
    (M ≤ s.buffer.length →
      s.getbytes = (s.buffer.take M).drop s.writeidx ++ s.buffer.take s.writeidx) := by
  refine ⟨?_, ?_, ?_⟩
  · have hM1 : (s.write d1 ts1).maxsize = some M := by rw [write_maxsize, hM]
    have h2' : d2.length % (s.write d1 ts1).framesize = 0 := by
      rw [write_framesize]
      exact h2
    obtain ⟨hg1, hok1, -⟩ := write_step s d1 ts1 M hM hMpos h1 hok
    obtain ⟨hg2, -, -⟩ := write_step (s.write d1 ts1) d2 ts2 M hM1 hMpos h2' hok1
    rw [hg2, hg1]
    have ea : s.getbytes.length + d1.length - M = (s.getbytes ++ d1).length - M := by
      rw [List.length_append]
    rw [ea, window_slide, List.append_assoc, List.length_append]
    have eb : s.getbytes.length + d1.length + d2.length - M =
        s.getbytes.length + (d1.length + d2.length - M) := by
      omega
    rw [eb, List.drop_append]
  · intro h
    unfold WaveStorage.getbytes
    rw [hM]
    dsimp only
    rw [if_pos h]
  · intro h
    unfold WaveStorage.getbytes
    rw [hM]
    dsimp only
    rw [if_neg (by omega)]

/-- Witness for C2: capacity 4 frames of 1 byte, writes of 3 and 3 bytes;
the ordered bytes are the last 4 of the concatenation. -/
theorem C2_wrap_correctness_witness :
    (WaveStorage.init 1 1 1 (some 4)).maxsize = some 4 ∧
    (((WaveStorage.init 1 1 1 (some 4)).write [1, 2, 3] none).write [4, 5, 6]
      none).getbytes = [3, 4, 5, 6] := by
  refine ⟨by decide, ?_⟩
  have h := (C2_wrap_correctness (WaveStorage.init 1 1 1 (some 4)) 4 [1, 2, 3]
    [4, 5, 6] none none (by decide) (by decide)
    ⟨by decide, by decide, fun _ => by decide⟩ (by decide) (by decide) (by decide)).1
  rw [h]
  decide

/-! ## Claim C7 — writes on a full ring -/

/-- A reachable full ring of capacity 4 bytes with cursor 2:
the result of writing 6 then 2 bytes into a 4-byte storage. -/
def fullRing4 : WaveStorage :=
  ((WaveStorage.init 1 1 1 (some 4)).write [1, 2, 3, 4, 5, 6] none).write [7, 8] none

/-- Counterexample to C7 as stated: on the full 4-byte ring with cursor 2, a
frame-aligned write of 2 bytes (2 < capacity) leaves the cursor at 4 =
capacityBytes — not `(2 + 2) % 4 = 0` and not strictly less than the
capacity. -/
theorem C7_counterexample :
    fullRing4.buffer.length = 4 ∧ fullRing4.writeidx = 2 ∧
    (fullRing4.write [9, 10] none).writeidx = 4 ∧
    (2 + 2) % 4 = 0 ∧
    ¬ (fullRing4.write [9, 10] none).writeidx < 4 := by decide

/-- Claim C7 (amended): on a full well-formed ring of byte capacity `M`, an
aligned write of `0 < size < M` bytes overwrites starting at the cursor,
wrapping at the boundary: the new cursor is `old + size` when that is at
most `M` — possibly exactly `M`, which later operations treat like 0 — and
`old + size - M` otherwise; it is always congruent to `old + size` mod `M`
and at most `M` (strictly less only when the write does not end exactly at
the boundary), and the logical bytes become the old bytes shifted by
`size` with the new data appended. -/
theorem C7_full_ring_write (s : WaveStorage) (data : List Nat) (perf : Option Int)
    (M : Nat) (hM : s.maxsize = some M) (hfull : s.buffer.length = M)
    (hwi : s.writeidx ≤ M) (halign : data.length % s.framesize = 0)
    (h0 : 0 < data.length) (hlt : data.length < M) :
    (s.write data perf).writeidx =
      (if s.writeidx + data.length ≤ M then s.writeidx + data.length
       else s.writeidx + data.length - M) ∧
    (s.write data perf).writeidx % M = (s.writeidx + data.length) % M ∧
    (s.write data perf).writeidx ≤ M ∧
    (s.write data perf).getbytes = s.getbytes.drop data.length ++ data := by
  have hMpos : 0 < M := by omega
  have hok : ringOk s M := ⟨le_of_eq hfull, hwi, fun h => by omega⟩
  have hwix := write_writeidx_aligned s data perf halign
  have h1 : ¬ M ≤ data.length := by omega
  have h2 : ¬ 0 < M - s.buffer.length := by omega
  have hcur : (s.write data perf).writeidx =
      (if s.writeidx + data.length ≤ M then s.writeidx + data.length
       else s.writeidx + data.length - M) := by
    rw [hwix]
    by_cases h3 : s.writeidx + data.length ≤ M
    · rw [writeRing_eq_fullFit s data M hM h1 h2 h3, if_pos h3]
    · rw [writeRing_eq_fullWrap s data M hM h1 h2 h3, if_neg h3]
      dsimp only
      omega
  refine ⟨hcur, ?_, ?_, ?_⟩
  · rw [hcur]
    by_cases h3 : s.writeidx + data.length ≤ M
    · rw [if_pos h3]
    · rw [if_neg h3]
      conv_rhs => rw [Nat.mod_eq_sub_mod (by omega)]
  · rw [hcur]
    by_cases h3 : s.writeidx + data.length ≤ M
    · rw [if_pos h3]
      exact h3
    · rw [if_neg h3]
      omega
  · obtain ⟨hg, -, -⟩ := write_step s data perf M hM hMpos halign hok
    rw [hg, getbytes_length_ringOk s M hM hok, hfull]
    have e : M + data.length - M = data.length := by omega
    rw [e, List.drop_append_eq_append_drop]
    have e2 : data.length - s.getbytes.length = 0 := by
      rw [getbytes_length_ringOk s M hM hok, hfull]
      omega
    rw [e2, List.drop_zero]

/-- Witness for C7 (amended) on the concrete full ring: writing one byte
advances the cursor from 2 to 3 and slides the window. -/
theorem C7_full_ring_write_witness :
    fullRing4.buffer.length = 4 ∧ fullRing4.writeidx = 2 ∧
    (fullRing4.write [9] none).writeidx = 3 ∧
    (fullRing4.write [9] none).getbytes = [6, 7, 8, 9] := by
  have h := C7_full_ring_write fullRing4 [9] none 4 (by decide) (by decide)
    (by decide) (by decide) (by decide) (by decide)
  refine ⟨by decide, by decide, ?_, ?_⟩
  · rw [h.1]
    decide
  · rw [h.2.2.2]
    decide

/-! ## Claim C6 — marker-timeline invariant -/

/-- The marker-timeline invariant of the claim (positions nonnegative and
non-decreasing in insertion order), strengthened — as needed for
preservation — with the fact that recorded positions never exceed the
current write position. -/
def markerInv (s : WaveStorage) : Prop :=
  (∀ m ∈ s.markers, 0 ≤ m.1 ∧ m.1 ≤ (s.nsampleswritten : Int)) ∧
  s.markers.Pairwise (fun m m' => m.1 ≤ m'.1)

/-- A storage on which `addmarker_at_time` violates the claimed invariant:
1 frame per second, 2 frames written at time 2 s (anchor therefore 4 s),
one marker added at position 2, then a marker requested at time 0 — 4 s
before the anchor, a computed offset of −4 frames. -/
def negMarkerStore : WaveStorage :=
  (((WaveStorage.init 1 1 1 (some 10)).write [7, 8] (some 2000000000)).addmarker
    "a").addmarker_at_time 0 "x"

/-- Counterexample to C6 as stated: after `addmarker_at_time` with a
computed offset of −4 frames, the marker list is `[(2, "a"), (-2, "x")]` —
the second position is negative (not representable as unsigned) and the
positions decrease in insertion order. -/
theorem C6_counterexample :
    negMarkerStore.markers = [(2, "a"), (-2, "x")] ∧
    ¬ (∀ m ∈ negMarkerStore.markers, 0 ≤ m.1) ∧
    ¬ negMarkerStore.markers.Pairwise (fun m m' => m.1 ≤ m'.1) := by
  refine ⟨by decide, by decide, by decide⟩

theorem pruneMarkers_subset (ns : Nat) (mfOpt : Option Nat)
    (ms : List (Int × String)) (m : Int × String)
    (h : m ∈ pruneMarkers ns mfOpt ms) : m ∈ ms := by
  cases mfOpt with
  | none => exact h
  | some mf => exact (List.mem_filter.mp h).1

theorem pruneMarkers_pairwise (ns : Nat) (mfOpt : Option Nat)
    (ms : List (Int × String)) {R : Int × String → Int × String → Prop}
    (h : ms.Pairwise R) : (pruneMarkers ns mfOpt ms).Pairwise R := by
  cases mfOpt with
  | none => exact h
  | some mf => exact h.filter _

theorem markerInv_addmarker (s : WaveStorage) (h : markerInv s) (lbl : String) :
    markerInv (s.addmarker lbl) := by
  obtain ⟨hb, hp⟩ := h
  have hbApp : ∀ m ∈ s.markers ++ [((s.nsampleswritten : Int), lbl)],
      0 ≤ m.1 ∧ m.1 ≤ (s.nsampleswritten : Int) := by
    intro m hm
    rcases List.mem_append.mp hm with h1 | h1
    · exact hb m h1
    · simp only [List.mem_singleton] at h1
      subst h1
      constructor
      · positivity
      · exact le_refl _
  have hpApp : (s.markers ++ [((s.nsampleswritten : Int), lbl)]).Pairwise
      (fun m m' => m.1 ≤ m'.1) := by
    rw [List.pairwise_append]
    refine ⟨hp, List.pairwise_singleton _ _, ?_⟩
    intro a ha b hbm
    simp only [List.mem_singleton] at hbm
    subst hbm
    exact (hb a ha).2
  constructor
  · intro m hm
    rw [addmarker_markers] at hm
    have hm' := pruneMarkers_subset _ _ _ _ hm
    simpa using hbApp m hm'
  · rw [addmarker_markers]
    exact pruneMarkers_pairwise _ _ _ hpApp

theorem markerInv_remove_old (s : WaveStorage) (h : markerInv s) :
    markerInv s.remove_old_markers := by
  obtain ⟨hb, hp⟩ := h
  constructor
  · intro m hm
    rw [remove_old_markers_markers] at hm
    simpa using hb m (pruneMarkers_subset _ _ _ _ hm)
  · rw [remove_old_markers_markers]
    exact pruneMarkers_pairwise _ _ _ hp

theorem markerInv_write (s : WaveStorage) (h : markerInv s) (data : List Nat)
    (perf : Option Int) : markerInv (s.write data perf) := by
  have hns : (s.nsampleswritten : Int) ≤ ((s.write data perf).nsampleswritten : Int) := by
    rw [write_nsampleswritten]
    exact_mod_cast Nat.le_add_right _ _
  have hmk := write_markers s data perf
  by_cases hc : data.length % s.framesize ≠ 0
  · rw [if_pos hc] at hmk
    obtain ⟨hb2, hp2⟩ := markerInv_addmarker s h "!WAVE MISALIGNED"
    constructor
    · intro m hm
      rw [hmk] at hm
      have h3 := hb2 m hm
      simp only [addmarker_nsampleswritten] at h3
      exact ⟨h3.1, le_trans h3.2 hns⟩
    · rw [hmk]
      exact hp2
  · rw [if_neg hc] at hmk
    obtain ⟨hb2, hp2⟩ := h
    constructor
    · intro m hm
      rw [hmk] at hm
      have h3 := hb2 m hm
      exact ⟨h3.1, le_trans h3.2 hns⟩
    · rw [hmk]
      exact hp2

/-- Claim C6 (amended): `addMarker`, `write` (with or without its
diagnostic marker) and pruning all preserve the marker-timeline invariant —
positions nonnegative, bounded by the current write position, and
non-decreasing in insertion order.  `addMarkerAtTime` does not: its
computed position can be negative or precede previously inserted markers
(see the counterexample). -/
theorem C6_marker_invariant_amended (s : WaveStorage) (h : markerInv s) :
    (∀ lbl, markerInv (s.addmarker lbl)) ∧
    (∀ data perf, markerInv (s.write data perf)) ∧
    markerInv s.remove_old_markers :=
  ⟨fun lbl => markerInv_addmarker s h lbl,
   fun data perf => markerInv_write s h data perf,
   markerInv_remove_old s h⟩

/-- Witness for C6 (amended) at a concrete storage with one marker. -/
theorem C6_marker_invariant_amended_witness :
    markerInv ((WaveStorage.init 1 1 1 (some 10)).addmarker "a") ∧
    markerInv (((WaveStorage.init 1 1 1 (some 10)).addmarker "a").addmarker "b") := by
  have h0 : markerInv ((WaveStorage.init 1 1 1 (some 10)).addmarker "a") :=
    ⟨by decide, by decide⟩
  exact ⟨h0, (C6_marker_invariant_amended _ h0).1 "b"⟩

/-! ## Claim C10 — buffer length vs frame counter -/

/-- States reachable from a freshly constructed storage by arbitrary
`write` calls. -/
inductive WriteReach (nch sw fr : Nat) (mf : Option Nat) : WaveStorage → Prop
  | init : WriteReach nch sw fr mf (WaveStorage.init nch sw fr mf)
  | step (s : WaveStorage) (data : List Nat) (perf : Option Int) :
      WriteReach nch sw fr mf s → WriteReach nch sw fr mf (s.write data perf)

theorem writeReach_fields {nch sw fr : Nat} {mf : Option Nat} {s : WaveStorage}
    (hr : WriteReach nch sw fr mf s) :
    s.nchannels = nch ∧ s.sampwidth = sw ∧ s.framerate = fr ∧ s.maxframes = mf := by
  induction hr with
  | init => exact ⟨rfl, rfl, rfl, rfl⟩
  | step s data perf _ ih => simpa using ih

/-- The buffer/counter relationship maintained by every write. -/
def lenInv (s : WaveStorage) : Prop :=
  match s.maxframes with
  | none => s.buffer.length = s.framesize * s.nsampleswritten ∧ s.writeidx = 0
  | some mf =>
    (0 < mf * s.framesize →
      ringOk s (mf * s.framesize) ∧
      s.buffer.length = min (s.framesize * s.nsampleswritten) (mf * s.framesize)) ∧
    (mf * s.framesize = 0 → s.writeidx = 0)

theorem writeRing_eq_unbounded (s : WaveStorage) (data : List Nat)
    (hms : s.maxsize = none) : s.writeRing data = (s.buffer ++ data, s.writeidx) := by
  unfold WaveStorage.writeRing
  rw [hms]

theorem lenInv_addmarker (s : WaveStorage) (lbl : String) (h : lenInv s) :
    lenInv (s.addmarker lbl) := by
  unfold lenInv ringOk at h ⊢
  simpa using h

theorem lenInv_write_aligned (s : WaveStorage) (data : List Nat) (perf : Option Int)
    (hfs : 0 < s.framesize) (halign : data.length % s.framesize = 0)
    (h : lenInv s) : lenInv (s.write data perf) := by
  have hsize : data.length = s.framesize * (data.length / s.framesize) := by
    have := Nat.div_add_mod data.length s.framesize
    omega
  unfold lenInv at h ⊢
  rcases hmf : s.maxframes with _ | c
  · rw [hmf] at h
    simp only [write_maxframes, hmf]
    have hms : s.maxsize = none := by
      simp [WaveStorage.maxsize, hmf]
    obtain ⟨hlen, hwz⟩ := h
    refine ⟨?_, ?_⟩
    · rw [write_buffer_aligned s data perf halign, writeRing_eq_unbounded s data hms,
        write_nsampleswritten, write_framesize]
      simp only [List.length_append]
      rw [hlen, Nat.mul_add]
      omega
    · rw [write_writeidx_aligned s data perf halign, writeRing_eq_unbounded s data hms]
      exact hwz
  · rw [hmf] at h
    simp only [write_maxframes, hmf, write_framesize, write_nsampleswritten]
    have hms : s.maxsize = some (c * s.framesize) := by
      simp [WaveStorage.maxsize, hmf]
    by_cases hM0 : 0 < c * s.framesize
    · obtain ⟨hok, hlen⟩ := h.1 hM0
      obtain ⟨-, hok', hlen'⟩ := write_step s data perf (c * s.framesize) hms hM0
        halign hok
      refine ⟨fun _ => ⟨?_, ?_⟩, fun h0 => by omega⟩
      · unfold ringOk at hok' ⊢
        simpa using hok'
      · rw [hlen', hlen, Nat.mul_add, ← hsize]
        omega
    · refine ⟨fun h0 => by omega, fun _ => ?_⟩
      rw [write_writeidx_aligned s data perf halign,
        writeRing_eq_overwrite s data (c * s.framesize) hms (by omega)]

theorem lenInv_write (s : WaveStorage) (data : List Nat) (perf : Option Int)
    (hfs : 0 < s.framesize) (h : lenInv s) : lenInv (s.write data perf) := by
  by_cases hc : data.length % s.framesize = 0
  · exact lenInv_write_aligned s data perf hfs hc h
  · rw [write_misaligned s data perf hc]
    have hal : (data.take (data.length - data.length % s.framesize)).length %
        (s.addmarker "!WAVE MISALIGNED").framesize = 0 := by
      rw [addmarker_framesize]
      simp only [List.length_take]
      rw [inf_eq_left.mpr (Nat.sub_le _ _)]
      have := Nat.div_add_mod data.length s.framesize
      have e : data.length - data.length % s.framesize =
          s.framesize * (data.length / s.framesize) := by omega
      rw [e, Nat.mul_mod_right]
    exact lenInv_write_aligned _ _ perf (by rw [addmarker_framesize]; exact hfs) hal
      (lenInv_addmarker s _ h)

theorem lenInv_of_reach {nch sw fr : Nat} {mf : Option Nat} {s : WaveStorage}
    (hr : WriteReach nch sw fr mf s) (hch : 0 < nch) (hsw : 0 < sw) :
    lenInv s := by
  induction hr with
  | init =>
    unfold lenInv
    rcases mf with _ | c
    · exact ⟨by simp [WaveStorage.init, WaveStorage.framesize], rfl⟩
    · refine ⟨fun h0 => ⟨⟨?_, ?_, fun _ => rfl⟩, ?_⟩, fun _ => rfl⟩
      · simp [WaveStorage.init]
      · simp [WaveStorage.init]
      · simp [WaveStorage.init]
  | step s data perf hr' ih =>
    have hfields := writeReach_fields hr'
    have hfs : 0 < s.framesize := by
      unfold WaveStorage.framesize
      rw [hfields.1, hfields.2.1]
      exact Nat.mul_pos hsw hch
    exact lenInv_write s data perf hfs ih

/-- Claim C10: after any sequence of writes, the length of `getbytes` is
`framesize * nsampleswritten` for an unbounded storage and
`framesize * min nsampleswritten capacityFrames` for a bounded one.
(`getbytes` itself is a pure read: it is a function of the state only.) -/
theorem C10_getbytes_length (nch sw fr : Nat) (mf : Option Nat) (s : WaveStorage)
    (hr : WriteReach nch sw fr mf s) (hch : 0 < nch) (hsw : 0 < sw) :
    (mf = none → s.getbytes.length = s.framesize * s.nsampleswritten) ∧
    (∀ c, mf = some c →
      s.getbytes.length = s.framesize * min s.nsampleswritten c) := by
  have hinv := lenInv_of_reach hr hch hsw
  have hmf : s.maxframes = mf := (writeReach_fields hr).2.2.2
  have hfs : 0 < s.framesize := by
    unfold WaveStorage.framesize
    rw [(writeReach_fields hr).1, (writeReach_fields hr).2.1]
    exact Nat.mul_pos hsw hch
  unfold lenInv at hinv
  constructor
  · intro hnone
    subst hnone
    rw [hmf] at hinv
    have hms : s.maxsize = none := by
      simp [WaveStorage.maxsize, hmf]
    unfold WaveStorage.getbytes
    rw [hms]
    exact hinv.1
  · intro c hsome
    subst hsome
    rw [hmf] at hinv
    have hms : s.maxsize = some (c * s.framesize) := by
      simp [WaveStorage.maxsize, hmf]
    by_cases hM0 : 0 < c * s.framesize
    · obtain ⟨hok, hlen⟩ := hinv.1 hM0
      rw [getbytes_length_ringOk s _ hms hok, hlen]
      rcases Nat.le_total s.nsampleswritten c with hle | hle
      · rw [min_eq_left hle, min_eq_left (by
          rw [Nat.mul_comm c s.framesize]
          exact Nat.mul_le_mul_left _ hle)]
      · rw [min_eq_right hle, min_eq_right (by
          rw [Nat.mul_comm c s.framesize]
          exact Nat.mul_le_mul_left _ hle), Nat.mul_comm]
    · have hcs : c * s.framesize = 0 := by omega
      have hc0 : c = 0 := by
        rcases Nat.mul_eq_zero.mp hcs with h0 | h0
        · exact h0
        · omega
      have hwz : s.writeidx = 0 := hinv.2 (by omega)
      subst hc0
      unfold WaveStorage.getbytes
      rw [hms, hwz]
      simp

/-- Witness for C10 on the concrete full ring (1-byte frames, capacity 4,
8 frames written): the ordered bytes have length `1 * min 8 4`. -/
theorem C10_getbytes_length_witness :
    fullRing4.getbytes.length = fullRing4.framesize * min fullRing4.nsampleswritten 4 :=
  (C10_getbytes_length 1 1 1 (some 4) fullRing4
    (WriteReach.step _ [7, 8] none (WriteReach.step _ [1, 2, 3, 4, 5, 6] none
      WriteReach.init)) (by decide) (by decide)).2 4 rfl

/-! ## Claim C8 — speech-block chunking in the Stream Tracker -/

/-- `maxblocksize` of `_player_feed` (lines 90-91): the frame size times the
sample rate divided by 5, i.e. 200 ms of audio in bytes. -/
def maxblocksize (channels bitsPerSample samplesPerSec : Nat) : Nat :=
  channels * bitsPerSample / 8 * samplesPerSec / 5

theorem chunks_base (m : Nat) (d : List Nat) (h : d = [] ∨ m = 0) :
    chunks m d = [] := by
  rw [chunks]
  simp [h]

theorem chunks_eq_cons (m : Nat) (d : List Nat) (hm : m ≠ 0) (hd : d ≠ []) :
    chunks m d = d.take m :: chunks m (d.drop m) := by
  conv_lhs => rw [chunks]
  rw [dif_neg (by push_neg; exact ⟨hd, hm⟩)]

theorem feedLoop_stop (m : Nat) (d : List Nat) (now : Int) (i : Nat) (p : PlayerInfo)
    (h : ¬ (0 < m ∧ i < d.length)) : feedLoop m d now i p = ([], p) := by
  rw [feedLoop]
  simp [h]

theorem feedLoop_step (m : Nat) (d : List Nat) (now : Int) (i : Nat) (p : PlayerInfo)
    (h : 0 < m ∧ i < d.length) :
    feedLoop m d now i p =
      (FeedEvent.origFeed ((d.drop i).take m) ::
        FeedEvent.storageWrite ((d.drop i).take m) ::
        (feedLoop m d now (i + m)
          { p with waveStorage := p.waveStorage.write ((d.drop i).take m) none
                   lastActivePerfCounter := now }).1,
       (feedLoop m d now (i + m)
          { p with waveStorage := p.waveStorage.write ((d.drop i).take m) none
                   lastActivePerfCounter := now }).2) := by
  conv_lhs => rw [feedLoop]
  rw [dif_pos h]

/-- The per-chunk state update of the feed loop, folded over the chunk
list. -/
def applyChunks (now : Int) : List (List Nat) → PlayerInfo → PlayerInfo
  | [], p => p
  | b :: rest, p =>
    applyChunks now rest
      { p with waveStorage := p.waveStorage.write b none
               lastActivePerfCounter := now }

theorem feedLoop_spec (m : Nat) (now : Int) (hm : 0 < m) (k : Nat) :
    ∀ (d : List Nat) (i : Nat) (p : PlayerInfo), d.length - i ≤ k →
      feedLoop m d now i p =
        ((chunks m (d.drop i)).flatMap
          (fun b => [FeedEvent.origFeed b, FeedEvent.storageWrite b]),
         applyChunks now (chunks m (d.drop i)) p) := by
  induction k with
  | zero =>
    intro d i p hk
    have hge : d.length ≤ i := by omega
    rw [feedLoop_stop m d now i p (by omega), List.drop_eq_nil_of_le hge,
      chunks_base m [] (Or.inl rfl)]
    rfl
  | succ k ih =>
    intro d i p hk
    by_cases hi : i < d.length
    · rw [feedLoop_step m d now i p ⟨hm, hi⟩, ih d (i + m) _ (by omega)]
      have hd : d.drop i ≠ [] := by
        have hpos : 0 < (d.drop i).length := by
          simp only [List.length_drop]
          omega
        intro hnil
        rw [hnil] at hpos
        exact absurd hpos (by simp)
      rw [chunks_eq_cons m (d.drop i) (by omega) hd]
      have hdd : (d.drop i).drop m = d.drop (i + m) := by
        rw [List.drop_drop, Nat.add_comm]
      rw [hdd]
      simp [applyChunks]
    · rw [feedLoop_stop m d now i p (by omega), List.drop_eq_nil_of_le (by omega),
        chunks_base m [] (Or.inl rfl)]
      rfl

theorem chunks_flatten (m : Nat) (hm : m ≠ 0) (k : Nat) :
    ∀ d : List Nat, d.length ≤ k → (chunks m d).flatten = d := by
  induction k with
  | zero =>
    intro d hk
    have : d = [] := List.eq_nil_of_length_eq_zero (by omega)
    subst this
    rw [chunks_base m [] (Or.inl rfl)]
    rfl
  | succ k ih =>
    intro d hk
    by_cases hd : d = []
    · subst hd
      rw [chunks_base m [] (Or.inl rfl)]
      rfl
    · rw [chunks_eq_cons m d hm hd]
      have hlt : 0 < d.length := List.length_pos.mpr hd
      simp only [List.flatten_cons]
      rw [ih (d.drop m) (by simp only [List.length_drop]; omega)]
      exact List.take_append_drop m d

theorem chunks_bound (m : Nat) (hm : m ≠ 0) (k : Nat) :
    ∀ d : List Nat, d.length ≤ k → ∀ b ∈ chunks m d, b.length ≤ m ∧ b ≠ [] := by
  induction k with
  | zero =>
    intro d hk
    have : d = [] := List.eq_nil_of_length_eq_zero (by omega)
    subst this
    rw [chunks_base m [] (Or.inl rfl)]
    intro b hb
    exact absurd hb (by simp)
  | succ k ih =>
    intro d hk
    by_cases hd : d = []
    · subst hd
      rw [chunks_base m [] (Or.inl rfl)]
      intro b hb
      exact absurd hb (by simp)
    · rw [chunks_eq_cons m d hm hd]
      have hlt : 0 < d.length := List.length_pos.mpr hd
      intro b hb
      rcases List.mem_cons.mp hb with hb1 | hb1
      · subst hb1
        constructor
        · simp only [List.length_take]
          omega
        · have : 0 < (d.take m).length := by
            simp only [List.length_take]
            omega
          intro hnil
          rw [hnil] at this
          exact absurd this (by simp)
      · exact ih (d.drop m) (by simp only [List.length_drop]; omega) b hb1

theorem applyChunks_waveStorage (now : Int) :
    ∀ (cs : List (List Nat)) (p : PlayerInfo),
      (applyChunks now cs p).waveStorage =
        cs.foldl (fun ws b => ws.write b none) p.waveStorage := by
  intro cs
  induction cs with
  | nil => intro p; rfl
  | cons b rest ih =>
    intro p
    simp only [applyChunks, List.foldl_cons]
    exact ih _

theorem applyChunks_fileName (now : Int) :
    ∀ (cs : List (List Nat)) (p : PlayerInfo),
      (applyChunks now cs p).fileName = p.fileName := by
  intro cs
  induction cs with
  | nil => intro p; rfl
  | cons b rest ih =>
    intro p
    simp only [applyChunks]
    exact ih _

theorem applyChunks_lastActive (now : Int) :
    ∀ (cs : List (List Nat)) (p : PlayerInfo), cs ≠ [] →
      (applyChunks now cs p).lastActivePerfCounter = now := by
  intro cs
  induction cs with
  | nil => intro p h; exact absurd rfl h
  | cons b rest ih =>
    intro p _
    by_cases hr : rest = []
    · subst hr
      rfl
    · exact ih _ hr

/-- Claim C8: a non-empty speech block fed through `_player_feed` is split
into sub-blocks of at most `maxblocksize = frameSize * sampleRate / 5`
bytes (200 ms) whose concatenation is the original block; for each
sub-block, in order, the original `feed` is invoked on the unchanged
sub-block before the sub-block is written (untimestamped) to the entry's
storage and the entry's last-active timestamp is refreshed to `now`. -/
theorem C8_feed_chunking (channels bitsPerSample samplesPerSec : Nat) (d : List Nat)
    (now : Int) (p : PlayerInfo)
    (hm : 0 < maxblocksize channels bitsPerSample samplesPerSec) (hd : d ≠ []) :
    feedLoop (maxblocksize channels bitsPerSample samplesPerSec) d now 0 p =
      ((chunks (maxblocksize channels bitsPerSample samplesPerSec) d).flatMap
        (fun b => [FeedEvent.origFeed b, FeedEvent.storageWrite b]),
       applyChunks now (chunks (maxblocksize channels bitsPerSample samplesPerSec) d) p) ∧
    (chunks (maxblocksize channels bitsPerSample samplesPerSec) d).flatten = d ∧
    (∀ b ∈ chunks (maxblocksize channels bitsPerSample samplesPerSec) d,
      b.length ≤ maxblocksize channels bitsPerSample samplesPerSec ∧ b ≠ []) ∧
    (applyChunks now (chunks (maxblocksize channels bitsPerSample samplesPerSec) d)
        p).waveStorage =
      (chunks (maxblocksize channels bitsPerSample samplesPerSec) d).foldl
        (fun ws b => ws.write b none) p.waveStorage ∧
    (applyChunks now (chunks (maxblocksize channels bitsPerSample samplesPerSec) d)
        p).lastActivePerfCounter = now ∧
    (applyChunks now (chunks (maxblocksize channels bitsPerSample samplesPerSec) d)
        p).fileName = p.fileName := by
  have hspec := feedLoop_spec (maxblocksize channels bitsPerSample samplesPerSec) now hm
    d.length d 0 p (by omega)
  rw [List.drop_zero] at hspec
  have hcs : chunks (maxblocksize channels bitsPerSample samplesPerSec) d ≠ [] := by
    rw [chunks_eq_cons _ d (by omega) hd]
    exact List.cons_ne_nil _ _
  exact ⟨hspec,
    chunks_flatten _ (by omega) d.length d (le_refl _),
    chunks_bound _ (by omega) d.length d (le_refl _),
    applyChunks_waveStorage now _ p,
    applyChunks_lastActive now _ p hcs,
    applyChunks_fileName now _ p⟩

/-- Witness for C8: 1 channel, 8-bit samples at 10 Hz gives 2-byte
sub-blocks; a 5-byte block splits into `[[1,2],[3,4],[5]]`. -/
theorem C8_feed_chunking_witness :
    0 < maxblocksize 1 8 10 ∧
    chunks (maxblocksize 1 8 10) [1, 2, 3, 4, 5] = [[1, 2], [3, 4], [5]] ∧
    (chunks (maxblocksize 1 8 10) [1, 2, 3, 4, 5]).flatten = [1, 2, 3, 4, 5] := by
  refine ⟨by decide, by simp [chunks, maxblocksize], ?_⟩
  exact (C8_feed_chunking 1 8 10 [1, 2, 3, 4, 5] 0
    { fileName := "WavePlayer 1.wav", lastActivePerfCounter := 0,
      waveStorage := WaveStorage.init 1 1 10 (some 300) }
    (by decide) (by decide)).2.1

/-! ## Claim C4 — RIFF cue / LIST-adtl serialization -/

/-- The 24 bytes of one cue point, for in-range values. -/
def cuePointBytes (id : Nat) (pos firstframe : Int) : List Nat :=
  le32 id ++ le32 pos.toNat ++ utf8Bytes "data" ++ le32 0 ++ le32 0 ++
    le32 (pos - firstframe).toNat

/-- The bytes of one `labl` sub-chunk, for in-range values. -/
def lablChunkBytes (id : Nat) (text : String) : List Nat :=
  utf8Bytes "labl" ++ le32 (4 + (paddedLabel text).length) ++ le32 id ++
    paddedLabel text

theorem packU32_eq (i : Int) (h0 : 0 ≤ i) (h1 : i < 4294967296) :
    packU32 i = some (le32 i.toNat) := by
  unfold packU32
  rw [if_pos ⟨h0, h1⟩]

theorem packU32_natCast (k : Nat) (h : k < 4294967296) :
    packU32 ((k : Nat) : Int) = some (le32 k) := by
  rw [packU32_eq _ (by positivity) (by exact_mod_cast h)]
  simp

theorem cuePointBytes_length (id : Nat) (pos ff : Int) :
    (cuePointBytes id pos ff).length = 24 := rfl

theorem lablChunkBytes_length (id : Nat) (text : String) :
    (lablChunkBytes id text).length = 12 + (paddedLabel text).length := by
  have h4 : (utf8Bytes "labl").length = 4 := rfl
  simp only [lablChunkBytes, List.length_append, h4, le32, List.length_cons,
    List.length_nil]

theorem cuePoint_eq (id : Nat) (pos ff : Int) (hid : (id : Int) < 4294967296)
    (h0 : 0 ≤ pos) (h1 : pos < 4294967296) (hff0 : 0 ≤ ff) (hffle : ff ≤ pos) :
    cuePoint id pos ff = some (cuePointBytes id pos ff) := by
  unfold cuePoint cuePointBytes
  rw [packU32_eq _ (by positivity) hid, packU32_eq _ h0 h1,
    packU32_eq 0 (le_refl 0) (by norm_num),
    packU32_eq _ (by omega) (by omega)]
  simp

theorem lablChunk_eq (id : Nat) (text : String) (hid : (id : Int) < 4294967296)
    (hlen : (paddedLabel text).length ≤ 512) :
    lablChunk id text = some (lablChunkBytes id text) := by
  unfold lablChunk lablChunkBytes
  rw [packU32_natCast (4 + (paddedLabel text).length) (by omega),
    packU32_natCast id (by omega)]
  rfl

theorem cueLoop_eq (ff : Int) (hff0 : 0 ≤ ff) :
    ∀ (ms : List (Int × String)) (id : Nat),
      (∀ m ∈ ms, 0 ≤ m.1 ∧ m.1 < 4294967296 ∧ ff ≤ m.1 ∧
        (paddedLabel m.2).length ≤ 512) →
      id + ms.length ≤ 4294967296 →
      cueLoop ff id ms =
        some ((List.enumFrom id ms).map (fun p => cuePointBytes p.1 p.2.1 ff),
              (List.enumFrom id ms).map (fun p => lablChunkBytes p.1 p.2.2)) := by
  intro ms
  induction ms with
  | nil =>
    intro id h hb
    rfl
  | cons m rest ih =>
    intro id h hb
    have hm := h m (List.mem_cons_self m rest)
    have hidlt : (id : Int) < 4294967296 := by
      simp only [List.length_cons] at hb
      exact_mod_cast by omega
    rw [cueLoop, cuePoint_eq id m.1 ff hidlt hm.1 hm.2.1 hff0 hm.2.2.1,
      lablChunk_eq id m.2 hidlt hm.2.2.2,
      ih (id + 1) (fun m' hm' => h m' (List.mem_cons_of_mem _ hm'))
        (by simp only [List.length_cons] at hb; omega)]
    simp [List.enumFrom]

theorem flatten_length_const (n : Nat) :
    ∀ l : List (List Nat), (∀ x ∈ l, x.length = n) →
      l.flatten.length = n * l.length := by
  intro l
  induction l with
  | nil =>
    intro _
    simp
  | cons a rest ih =>
    intro h
    simp only [List.flatten_cons, List.length_append, List.length_cons]
    rw [h a (List.mem_cons_self _ _),
      ih (fun x hx => h x (List.mem_cons_of_mem _ hx)), Nat.mul_succ]
    omega

theorem flatten_length_le (n : Nat) :
    ∀ l : List (List Nat), (∀ x ∈ l, x.length ≤ n) →
      l.flatten.length ≤ n * l.length := by
  intro l
  induction l with
  | nil =>
    intro _
    simp
  | cons a rest ih =>
    intro h
    simp only [List.flatten_cons, List.length_append, List.length_cons]
    have h1 := h a (List.mem_cons_self _ _)
    have h2 := ih (fun x hx => h x (List.mem_cons_of_mem _ hx))
    rw [Nat.mul_succ]
    omega

theorem pruneMarkers_length_le (ns : Nat) (mfOpt : Option Nat)
    (ms : List (Int × String)) : (pruneMarkers ns mfOpt ms).length ≤ ms.length := by
  cases mfOpt with
  | none => exact le_refl _
  | some mf => exact List.length_filter_le _ _

theorem remove_old_markers_firstframe (s : WaveStorage) :
    s.remove_old_markers.firstframe = s.firstframe := rfl

/-- `getwavecuedata` after the marker loop has produced its two lists. -/
theorem getwavecuedata_after_loop (s : WaveStorage) (A B : List (List Nat))
    (hloop : cueLoop s.firstframe 1
      (pruneMarkers s.nsampleswritten s.maxframes s.markers) = some (A, B)) :
    s.getwavecuedata = (do
      let cueSzB ← packU32 ((4 + A.flatten.length : Nat) : Int)
      let cntB ← packU32 ((A.length : Nat) : Int)
      let listSzB ← packU32 ((4 + B.flatten.length : Nat) : Int)
      return utf8Bytes "cue " ++ cueSzB ++ cntB ++ A.flatten ++
        utf8Bytes "LIST" ++ listSzB ++ utf8Bytes "adtl" ++ B.flatten) := by
  unfold WaveStorage.getwavecuedata
  rw [remove_old_markers_firstframe, remove_old_markers_markers, hloop]
  exact Option.some_bind _ _

/-- Assembling the two chunks from in-range cue-point and label lists. -/
theorem assembleCue (A B : List (List Nat)) (hA24 : ∀ x ∈ A, x.length = 24)
    (hAn : A.length ≤ 65536) (hBn : B.length ≤ 65536)
    (hB : ∀ x ∈ B, x.length ≤ 524) :
    ((do
      let cueSzB ← packU32 ((4 + A.flatten.length : Nat) : Int)
      let cntB ← packU32 ((A.length : Nat) : Int)
      let listSzB ← packU32 ((4 + B.flatten.length : Nat) : Int)
      return utf8Bytes "cue " ++ cueSzB ++ cntB ++ A.flatten ++
        utf8Bytes "LIST" ++ listSzB ++ utf8Bytes "adtl" ++ B.flatten) :
      Option (List Nat)) =
    some (utf8Bytes "cue " ++ le32 (4 + 24 * A.length) ++ le32 A.length ++
      A.flatten ++ utf8Bytes "LIST" ++ le32 (4 + B.flatten.length) ++
      utf8Bytes "adtl" ++ B.flatten) := by
  have hAflat : A.flatten.length = 24 * A.length := flatten_length_const 24 A hA24
  have hBflat : B.flatten.length ≤ 524 * B.length := flatten_length_le 524 B hB
  have hmulA : 24 * A.length ≤ 24 * 65536 := Nat.mul_le_mul_left 24 hAn
  have hmulB : 524 * B.length ≤ 524 * 65536 := Nat.mul_le_mul_left 524 hBn
  rw [packU32_natCast (4 + A.flatten.length) (by omega),
    packU32_natCast A.length (by omega),
    packU32_natCast (4 + B.flatten.length) (by omega)]
  simp only [Option.bind_eq_bind, Option.some_bind, Option.pure_def]
  rw [hAflat]

theorem firstframe_nonneg (s : WaveStorage) : 0 ≤ s.firstframe := by
  unfold WaveStorage.firstframe
  cases s.maxframes with
  | none => exact le_refl _
  | some mf => exact le_max_right _ _

theorem firstframe_le_of_kept (s : WaveStorage) (m : Int × String)
    (hm : m ∈ pruneMarkers s.nsampleswritten s.maxframes s.markers)
    (h0 : 0 ≤ m.1) : s.firstframe ≤ m.1 := by
  unfold WaveStorage.firstframe
  unfold pruneMarkers at hm
  cases hmf : s.maxframes with
  | none => exact h0
  | some mf =>
    rw [hmf] at hm
    have := (List.mem_filter.mp hm).2
    simp only [decide_eq_true_eq] at this
    exact max_le this h0

/-- Claim C4: `getwavecuedata` first discards every marker whose position is
below `nsampleswritten - maxframes`, then — for in-range positions and
label sizes — emits the `cue ` chunk (size `4 + 24n`, count `n`, one
24-byte cue point per retained marker with 1-based sequential ids, the
`data` chunk name, and sample offset `position - firstframe`), followed by
the `LIST`/`adtl` chunk with one `labl` sub-chunk per marker holding the
NUL-terminated UTF-8 label padded to even length; a pruned marker
contributes no cue point or label. -/
theorem C4_serialize_cue (s : WaveStorage)
    (hbound : ∀ m ∈ s.markers,
      0 ≤ m.1 ∧ m.1 < 4294967296 ∧ (paddedLabel m.2).length ≤ 512)
    (hcount : s.markers.length ≤ 65536) :
    s.getwavecuedata =
      some (utf8Bytes "cue " ++
        le32 (4 + 24 * (pruneMarkers s.nsampleswritten s.maxframes s.markers).length) ++
        le32 (pruneMarkers s.nsampleswritten s.maxframes s.markers).length ++
        ((List.enumFrom 1 (pruneMarkers s.nsampleswritten s.maxframes s.markers)).map
          (fun p => cuePointBytes p.1 p.2.1 s.firstframe)).flatten ++
        utf8Bytes "LIST" ++
        le32 (4 + ((List.enumFrom 1
          (pruneMarkers s.nsampleswritten s.maxframes s.markers)).map
          (fun p => lablChunkBytes p.1 p.2.2)).flatten.length) ++
        utf8Bytes "adtl" ++
        ((List.enumFrom 1 (pruneMarkers s.nsampleswritten s.maxframes s.markers)).map
          (fun p => lablChunkBytes p.1 p.2.2)).flatten) ∧
    (∀ mf, s.maxframes = some mf → ∀ m ∈ s.markers,
      m.1 < (s.nsampleswritten : Int) - (mf : Int) →
      m ∉ pruneMarkers s.nsampleswritten s.maxframes s.markers) := by
  have hkept_le := pruneMarkers_length_le s.nsampleswritten s.maxframes s.markers
  have hkbound : ∀ m ∈ pruneMarkers s.nsampleswritten s.maxframes s.markers,
      0 ≤ m.1 ∧ m.1 < 4294967296 ∧ s.firstframe ≤ m.1 ∧
      (paddedLabel m.2).length ≤ 512 := by
    intro m hm
    have hb := hbound m (pruneMarkers_subset _ _ _ _ hm)
    exact ⟨hb.1, hb.2.1, firstframe_le_of_kept s m hm hb.1, hb.2.2⟩
  constructor
  · have hloop := cueLoop_eq s.firstframe (firstframe_nonneg s)
      (pruneMarkers s.nsampleswritten s.maxframes s.markers) 1 hkbound (by omega)
    have hAlen : ((List.enumFrom 1
        (pruneMarkers s.nsampleswritten s.maxframes s.markers)).map
        (fun p => cuePointBytes p.1 p.2.1 s.firstframe)).length =
        (pruneMarkers s.nsampleswritten s.maxframes s.markers).length := by
      rw [List.length_map, List.enumFrom_length]
    rw [getwavecuedata_after_loop s _ _ hloop, ← hAlen]
    exact assembleCue _ _
      (fun x hx => by
        obtain ⟨p, -, rfl⟩ := List.mem_map.mp hx
        exact cuePointBytes_length _ _ _)
      (by rw [hAlen]; omega)
      (by rw [List.length_map, List.enumFrom_length]; omega)
      (fun x hx => by
        obtain ⟨p, hp, rfl⟩ := List.mem_map.mp hx
        rw [lablChunkBytes_length]
        have := (hkbound p.2 (List.snd_mem_of_mem_enumFrom hp)).2.2.2
        omega)
  · intro mf hmf m hm hlt
    intro hmem
    unfold pruneMarkers at hmem
    rw [hmf] at hmem
    have := (List.mem_filter.mp hmem).2
    simp only [decide_eq_true_eq] at this
    omega

/-- Witness for C4 on a storage with one marker `(0, "ab")`: the exact
cue-chunk and LIST-adtl bytes. -/
theorem C4_serialize_cue_witness :
    (∀ m ∈ ((WaveStorage.init 1 1 1 (some 10)).addmarker "ab").markers,
      0 ≤ m.1 ∧ m.1 < 4294967296 ∧ (paddedLabel m.2).length ≤ 512) ∧
    ((WaveStorage.init 1 1 1 (some 10)).addmarker "ab").markers.length ≤ 65536 ∧
    ((WaveStorage.init 1 1 1 (some 10)).addmarker "ab").getwavecuedata =
      some ([99, 117, 101, 32] ++ le32 28 ++ le32 1 ++
        (le32 1 ++ le32 0 ++ [100, 97, 116, 97] ++ le32 0 ++ le32 0 ++ le32 0) ++
        [76, 73, 83, 84] ++ le32 20 ++ [97, 100, 116, 108] ++
        ([108, 97, 98, 108] ++ le32 8 ++ le32 1 ++ [97, 98, 0, 0])) := by
  refine ⟨by decide, by decide, ?_⟩
  rw [(C4_serialize_cue ((WaveStorage.init 1 1 1 (some 10)).addmarker "ab")
    (by decide) (by decide)).1]
  decide

end AudioLogger
